import Mathlib

/-!
Verification development for the GEMA-RAG query routing, hybrid retrieval and
answer verification pipeline.

The definitions below are a shallow embedding of the Python sources:
  * `src/unified_rag.py`    — `UnifiedRAG.classify_query`, `UnifiedRAG.retrieve_documents`
  * `src/test_retrieval.py` — `hybrid_search`
  * `src/verify_answer.py`  — `AnswerVerifier.verify_numeric`, `verify_citations`, `verify_answer`
  * `src/answer_question.py`— the citation repair loop of `generate_answer`

Modelling conventions:
  * Python strings are Lean `String` (lists of characters); regular-expression
    extraction is implemented as an explicit left-to-right scanner that mirrors
    the concrete patterns used by the source.
  * Python floats are modelled as rationals (`ℚ`); the fusion weights 0.6 and
    0.4 become `6/10` and `4/10`.
  * The external collaborators (the FAISS dense index, the BM25 scorer and the
    sentence-embedding model) are abstracted by score oracles carried in the
    `Store` structure: a dense nearest-neighbor search over `n` indexed vectors
    returns the top `min(m, n)` valid positions ranked by score, padded with
    `-1` sentinel entries up to `m` (the library's behavior when the index
    holds fewer than `m` vectors); the BM25 scorer assigns a score to every
    chunk position.  `retrieve_documents` consumes the padded list exactly as
    the Python loop does (a `-1` passes the `idx < len(chunks)` guard and is
    resolved by Python negative indexing).  The fused candidate loops of
    `hybrid_search` are modelled over the valid positions, the declared
    collaborator contract for `2k ≤ n`.
  * A Python expression that raises is modelled by an `Option` result, `none`
    standing for the raised exception: `retrieve_documents` raises
    (`IndexError` at `chunks[-1]`) on an empty store, and `hybrid_search`
    raises on an empty store as well (`IndexError` at `chunk_ids[-1]` in the
    dense loop when the id table is empty, or `ValueError` at `max()` of the
    empty BM25 score array); `none` collapses the raise sites into one error
    outcome.
-/

attribute [local semireducible] Rat.mul Rat.add Rat.sub Rat.inv

/-! ## Generic character-list utilities -/

/-- Decidable check that `pat` is a prefix of `l` (character-exact). -/
def isPrefChars : List Char → List Char → Bool
  | [], _ => true
  | _ :: _, [] => false
  | p :: ps, c :: cs => p == c && isPrefChars ps cs

/-- Python `pat in s`: `pat` occurs contiguously inside `l`. -/
def hasSubChars (pat : List Char) : List Char → Bool
  | [] => isPrefChars pat []
  | c :: rest => isPrefChars pat (c :: rest) || hasSubChars pat rest

/-- Python `pat in s` on strings. -/
def strContains (hay pat : String) : Bool :=
  hasSubChars pat.data hay.data

/-- ASCII whitespace, as matched by the `\s` regex class and stripped by `str.strip()`. -/
def isSpaceChar (c : Char) : Bool :=
  c == ' ' || c == '\t' || c == '\n' || c == '\r' || c == '\x0b' || c == '\x0c'

/-- Python `str.strip()`: drop leading and trailing whitespace. -/
def stripChars (l : List Char) : List Char :=
  ((l.dropWhile isSpaceChar).reverse.dropWhile isSpaceChar).reverse

/-- Python `str.lower()` restricted to ASCII letters (the only ones the routing keywords use). -/
def lowerChars (l : List Char) : List Char :=
  l.map Char.toLower

/-- Numeric value of a digit string, as computed by Python `int`. -/
def digitsToNat (l : List Char) : Nat :=
  l.foldl (fun n c => 10 * n + (c.toNat - '0'.toNat)) 0

/-- Python `str.replace(pat, rep)`: replace every non-overlapping occurrence,
scanning left to right.  `fuel` bounds the recursion; it is instantiated with
the length of the subject, which suffices because every step consumes at least
one character of the subject. -/
def replaceChars : Nat → List Char → List Char → List Char → List Char
  | 0, _, _, l => l
  | _ + 1, _, _, [] => []
  | fuel + 1, pat, rep, c :: rest =>
    if isPrefChars pat (c :: rest) && !pat.isEmpty then
      rep ++ replaceChars fuel pat rep ((c :: rest).drop pat.length)
    else
      c :: replaceChars fuel pat rep rest

/-- Python `str.replace` on strings. -/
def strReplace (s pat rep : String) : String :=
  String.mk (replaceChars s.data.length pat.data rep.data s.data)

/-- Python `' '.join(parts)`. -/
def joinSpace : List String → String
  | [] => ""
  | [x] => x
  | x :: rest => x ++ " " ++ joinSpace rest

/-! ## Citation marker extraction

Embeds `re.findall(r'\[Source (\d+)\]', answer)` from `verify_answer.py`
(line 71) and `answer_question.py` (line 149).  The scanner returns the
captured digit strings in order of occurrence, scanning left to right and
resuming after each match, exactly as `findall` does. -/

/-- Match the pattern `[Source (\d+)]` at the head of `l`.  On success return
the captured digit string and the rest of the input after the closing bracket.
The digit run is taken maximally, which agrees with the regex because `\d+` is
followed by the non-digit `]`. -/
def matchCitationAt (l : List Char) : Option (List Char × List Char) :=
  match isPrefChars "[Source ".data l with
  | false => none
  | true =>
    let afterTag := l.drop 8
    let digits := afterTag.takeWhile Char.isDigit
    if digits.isEmpty then none
    else
      match afterTag.drop digits.length with
      | ']' :: rest => some (digits, rest)
      | _ => none

/-- Left-to-right non-overlapping scan for citation markers. -/
def extractCitationsAux : Nat → List Char → List String
  | 0, _ => []
  | _ + 1, [] => []
  | fuel + 1, c :: rest =>
    match matchCitationAt (c :: rest) with
    | some (digits, after) => String.mk digits :: extractCitationsAux fuel after
    | none => extractCitationsAux fuel rest

/-- All `[Source N]` markers of `answer`, as captured digit strings. -/
def extractCitations (answer : String) : List String :=
  extractCitationsAux answer.data.length answer.data

/-! ## Amount extraction

Embeds `re.findall(r'Rs\.?\s*(\d+(?:,\d+)*)\s*(Lakhs?|Crores?|lakh|crore)',
answer, re.IGNORECASE)` from `verify_answer.py` (line 32).  Matches are pairs
(amount digits possibly with comma groups, unit as it appears in the text). -/

/-- Case-insensitive character comparison (`re.IGNORECASE`). -/
def charCI (a b : Char) : Bool :=
  a.toLower == b.toLower

/-- Case-insensitive prefix test. -/
def isPrefCI : List Char → List Char → Bool
  | [], _ => true
  | _ :: _, [] => false
  | p :: ps, c :: cs => charCI p c && isPrefCI ps cs

/-- Match the unit alternation `Lakhs?|Crores?|lakh|crore` case-insensitively,
longest alternative first (the regex tries the optional `s` greedily).  Returns
the matched text in its original case together with the rest of the input. -/
def matchUnitAt (l : List Char) : Option (List Char × List Char) :=
  if isPrefCI "lakhs".data l then some (l.take 5, l.drop 5)
  else if isPrefCI "lakh".data l then some (l.take 4, l.drop 4)
  else if isPrefCI "crores".data l then some (l.take 6, l.drop 6)
  else if isPrefCI "crore".data l then some (l.take 5, l.drop 5)
  else none

/-- Match the comma groups `(?:,\d+)*` greedily: consume `,` followed by a
nonempty digit run, as many times as possible.  Returns the consumed characters
and the rest.  `fuel` bounds the recursion (each round consumes ≥ 2 characters). -/
def commaGroupsAux : Nat → List Char → List Char × List Char
  | 0, l => ([], l)
  | fuel + 1, l =>
    match l with
    | ',' :: rest =>
      let ds := rest.takeWhile Char.isDigit
      if ds.isEmpty then ([], l)
      else
        let (gs, r) := commaGroupsAux fuel (rest.drop ds.length)
        (',' :: (ds ++ gs), r)
    | _ => ([], l)

/-- Match the full amount pattern at the head of `l`: `Rs`, optional `.`,
whitespace, digits with comma groups, whitespace, unit.  Greedy consumption of
the optional dot, the digit runs and the whitespace agrees with the regex
because no later pattern element can match the characters given back. -/
def matchAmountAt (l : List Char) : Option ((List Char × List Char) × List Char) :=
  match l with
  | r :: s :: rest =>
    if charCI r 'r' && charCI s 's' then
      let afterDot := match rest with
        | '.' :: t => t
        | t => t
      let afterSpace1 := afterDot.dropWhile isSpaceChar
      let digits := afterSpace1.takeWhile Char.isDigit
      if digits.isEmpty then none
      else
        let (groups, afterNum) := commaGroupsAux afterSpace1.length (afterSpace1.drop digits.length)
        let afterSpace2 := afterNum.dropWhile isSpaceChar
        match matchUnitAt afterSpace2 with
        | some (unit, after) => some ((digits ++ groups, unit), after)
        | none => none
    else none
  | _ => none

/-- Left-to-right non-overlapping scan for amounts. -/
def extractAmountsAux : Nat → List Char → List (String × String)
  | 0, _ => []
  | _ + 1, [] => []
  | fuel + 1, c :: rest =>
    match matchAmountAt (c :: rest) with
    | some ((amount, unit), after) =>
      (String.mk amount, String.mk unit) :: extractAmountsAux fuel after
    | none => extractAmountsAux fuel rest

/-- All currency amounts of `answer`, as (numeric component, unit) pairs. -/
def extractAmounts (answer : String) : List (String × String) :=
  extractAmountsAux answer.data.length answer.data

/-! ## Data model

`Chunk` is the evidence record of `data/parsed/chunks.jsonl`; only the fields
the embedded functions read are carried.  The `canonicals` object is modelled
by its single consumed field `amount_surface`; `none` stands for an absent or
empty `canonicals` entry. -/

structure Canonicals where
  amount_surface : Option String
  deriving DecidableEq, Repr

structure Chunk where
  chunk_id : String
  filename : String
  page : String
  text : String
  canonicals : Option Canonicals
  deriving DecidableEq, Repr

def defaultChunk : Chunk :=
  { chunk_id := "", filename := "", page := "", text := "", canonicals := none }

/-- A retrieval result as consumed by the verifier: a record with a `chunk`
key (`source['chunk']` in `verify_numeric`, `item['chunk']` in `verify_answer`). -/
structure SourceItem where
  chunk : Chunk
  deriving DecidableEq, Repr

/-- Result of one verification layer: the `passed` flag and the ordered issue
list (the informational report fields are not modelled). -/
structure LayerResult where
  passed : Bool
  issues : List String
  deriving DecidableEq, Repr

/-- Result of `AnswerVerifier.verify_answer`. -/
structure VerifyResult where
  verified : Bool
  reason : String
  deriving DecidableEq, Repr

/-! ## AnswerVerifier.verify_numeric  (verify_answer.py lines 24-61) -/

/-- Canonical amounts collected from the sources: `chunk['canonicals']['amount_surface']`
for every source whose chunk has a (non-empty) `canonicals` with that key. -/
def canonicalAmounts (sources : List SourceItem) : List String :=
  sources.filterMap (fun s => s.chunk.canonicals.bind Canonicals.amount_surface)

/-- Concatenated source text: `' '.join([s['chunk']['text'] for s in sources])`. -/
def sourceText (sources : List SourceItem) : String :=
  joinSpace (sources.map (fun s => s.chunk.text))

/-- The per-amount check of `verify_numeric`: the numeric component `amount`
appears inside some canonical amount string or inside the concatenated source
text (`found_canonical or found_text`); the unit is not consulted. -/
def amountFound (sources : List SourceItem) (amount : String) : Bool :=
  (canonicalAmounts sources).any (fun canon => strContains canon amount)
    || strContains (sourceText sources) amount

/-- Issue string recorded for an unverified amount. -/
def numericIssue (amount unit : String) : String :=
  "Amount \x27Rs. " ++ amount ++ " " ++ unit ++ "\x27 not verified in sources"

/-- Layer 1: numeric verification.  An amount is reported
(`if not (found_canonical or found_text)`) exactly when `amountFound` is false. -/
def verify_numeric (answer : String) (sources : List SourceItem) : LayerResult :=
  let answer_amounts := extractAmounts answer
  if answer_amounts.isEmpty then { passed := true, issues := [] }
  else
    let issues := answer_amounts.filterMap (fun au =>
      if !amountFound sources au.1 then some (numericIssue au.1 au.2) else none)
    { passed := issues.isEmpty, issues := issues }

/-! ## AnswerVerifier.verify_citations  (verify_answer.py lines 63-87) -/

/-- Issue string recorded for an out-of-range citation. -/
def citationIssue (cite : String) (max_source : Nat) : String :=
  "Invalid citation [Source " ++ cite ++ "] - only " ++ toString max_source
    ++ " sources available"

/-- The invalidity test of `verify_citations`:
`int(cite_num) > max_source or int(cite_num) < 1`. -/
def citeOutOfRange (max_source n : Nat) : Bool :=
  decide (max_source < n) || decide (n < 1)

/-- Layer 2: citation verification. -/
def verify_citations (answer : String) (sources : List SourceItem) : LayerResult :=
  let citations := extractCitations answer
  if citations.isEmpty then { passed := true, issues := [] }
  else
    let max_source := sources.length
    let issues := citations.filterMap (fun cite =>
      if citeOutOfRange max_source (digitsToNat cite.data) then
        some (citationIssue cite max_source)
      else none)
    { passed := issues.isEmpty, issues := issues }

/-! ## AnswerVerifier.verify_answer  (verify_answer.py lines 124-138)

The entry point returns `verified=False` when `sources` is empty and otherwise
builds `context_text` (unused) and returns `verified=True` without consulting
the three layer checks. -/

def verify_answer (answer : String) (sources : List SourceItem)
    (source_type : String) : VerifyResult :=
  if sources.isEmpty then { verified := false, reason := "No sources provided" }
  else
    let _context_text :=
      sources.foldl (fun acc item => acc ++ item.chunk.text ++ " ") ""
    { verified := true, reason := "Verification passed" }

/-! ## Citation repair  (answer_question.py lines 148-152)

After generation, `generate_answer` extracts all citation markers from the
answer and, for every marker whose number exceeds the number of supplied
sources, replaces all its occurrences by a marker naming the last source. -/

def repairStep (num_sources : Nat) (acc : String) (cite : String) : String :=
  if num_sources < digitsToNat cite.data then
    strReplace acc ("[Source " ++ cite ++ "]")
      ("[Source " ++ toString num_sources ++ "]")
  else acc

def repairCitations (answer : String) (num_sources : Nat) : String :=
  (extractCitations answer).foldl (repairStep num_sources) answer

/-! ## UnifiedRAG.classify_query  (unified_rag.py lines 44-78) -/

inductive QueryType where
  | SMALL_TALK
  | CAPABILITY
  | GRAPH
  | FAQ
  | SEMANTIC
  deriving DecidableEq, Repr

def chitchat_triggers : List String :=
  ["hi", "hello", "hey", "good morning", "good evening",
   "how are you", "how r u", "how is it going", "whats up",
   "who are you", "what is your name", "are you human", "you are smart",
   "thank you", "thanks", "cool", "ok", "bye", "goodbye"]

def graph_keywords : List String :=
  ["list of", "which investors", "which sectors", "how many", "relationships"]

def faq_keywords : List String :=
  ["maximum grant", "eligible", "interest rate", "tenure"]

/-- Lowercased stripped query: `q = query.lower().strip()`. -/
def normalizeQuery (query : String) : List Char :=
  stripChars (lowerChars query.data)

/-- Rule 1: `q in chitchat_triggers or (len(q) < 30 and any(t in q for t in chitchat_triggers))`. -/
def smallTalkCond (q : List Char) : Bool :=
  chitchat_triggers.any (fun t => t.data == q)
    || (decide (q.length < 30) && chitchat_triggers.any (fun t => hasSubChars t.data q))

/-- Rule 2: `'what can you do' in q or 'help me' in q`. -/
def capabilityCond (q : List Char) : Bool :=
  hasSubChars "what can you do".data q || hasSubChars "help me".data q

/-- Rule 3: `any(k in q for k in graph_keywords)`. -/
def graphCond (q : List Char) : Bool :=
  graph_keywords.any (fun k => hasSubChars k.data q)

/-- Rule 4: `any(k in q for k in faq_keywords)`. -/
def faqCond (q : List Char) : Bool :=
  faq_keywords.any (fun k => hasSubChars k.data q)

/-- The intent classifier: the five rules are evaluated in order, first match
wins, SEMANTIC is the default. -/
def classify_query (query : String) : QueryType :=
  let q := normalizeQuery query
  if smallTalkCond q then QueryType.SMALL_TALK
  else if capabilityCond q then QueryType.CAPABILITY
  else if graphCond q then QueryType.GRAPH
  else if faqCond q then QueryType.FAQ
  else QueryType.SEMANTIC

/-! ## Retrieval: evidence store model

The `Store` packages the immutable read-only state loaded at process start:
the chunk list (`chunks.jsonl`), the position → chunk_id table
(`chunk_ids.json`), and the two scoring collaborators.  `denseScore q p` is
the inner-product score the dense index assigns to the vector at position `p`
for query `q`; `bm25Score q p` is the BM25 score of chunk position `p`. -/

structure Store where
  chunks : List Chunk
  chunk_ids : List String
  denseScore : String → Nat → ℚ
  bm25Score : String → Nat → ℚ

/-- Stable insertion of `x` into a list already sorted by descending key:
`x` goes after every element whose key is at least `f x`.  Used to model the
ranking of index search results and Python `sorted(..., reverse=True)`
(a stable sort). -/
def insertRanked (f : α → ℚ) (acc : List α) (x : α) : List α :=
  match acc with
  | [] => [x]
  | y :: rest => if f x ≤ f y then y :: insertRanked f rest x else x :: y :: rest

/-- Stable sort by descending key. -/
def sortByScoreDesc (f : α → ℚ) (l : List α) : List α :=
  l.foldl (insertRanked f) []

/-- All index positions `0 .. n-1` ranked by descending score (ties keep
ascending position order). -/
def rankedPositions (n : Nat) (score : Nat → ℚ) : List Nat :=
  sortByScoreDesc score (List.range n)

/-- Dense candidates of `hybrid_search`: `minilm_index.search(v, top_k * 2)`,
i.e. the `top_k * 2` best positions by dense score. -/
def denseCandidates (store : Store) (query : String) (top_k : Nat) : List Nat :=
  (rankedPositions store.chunks.length (store.denseScore query)).take (top_k * 2)

/-- Sparse candidates of `hybrid_search`:
`np.argsort(bm25_scores)[-top_k*2:][::-1]`.  For `top_k * 2 = 0` the Python
slice `[-0:]` keeps the whole array, so all positions are candidates. -/
def sparseCandidates (store : Store) (query : String) (top_k : Nat) : List Nat :=
  let ranked := rankedPositions store.chunks.length (store.bm25Score query)
  if top_k * 2 = 0 then ranked else ranked.take (top_k * 2)

/-- Python `results.get(chunk_id, 0) + s` followed by `results[chunk_id] = ...`
on an insertion-ordered dict, modelled on an association list. -/
def upsert : List (String × ℚ) → String → ℚ → List (String × ℚ)
  | [], cid, s => [(cid, s)]
  | (c, v) :: rest, cid, s =>
    if c = cid then (c, v + s) :: rest else (c, v) :: upsert rest cid s

/-- Lookup in the fused score dict. -/
def getScore : List (String × ℚ) → String → Option ℚ
  | [], _ => none
  | (c, v) :: rest, cid => if c = cid then some v else getScore rest cid

/-- Python `max(bm25_scores)`: `none` models the `ValueError` raised on an
empty sequence. -/
def listMax : List ℚ → Option ℚ
  | [] => none
  | x :: xs => some (xs.foldl max x)

/-- The division-by-zero guard:
`max_bm25 = max(bm25_scores) if max(bm25_scores) > 0 else 1.0`. -/
def maxBm25Norm (mx : ℚ) : ℚ :=
  if mx > 0 then mx else 1

/-- The fused score dict of `hybrid_search` (lines 58-70): dense candidates
contribute `score * 0.6`, sparse candidates contribute
`(bm25_score / max_bm25) * 0.4`, summed per chunk id. -/
def fusedResults (store : Store) (query : String) (top_k : Nat) (max_bm25 : ℚ) :
    List (String × ℚ) :=
  let afterDense := (denseCandidates store query top_k).foldl
    (fun acc p => upsert acc (store.chunk_ids.getD p "") (store.denseScore query p * (6/10)))
    []
  (sparseCandidates store query top_k).foldl
    (fun acc p => upsert acc (store.chunk_ids.getD p "") (store.bm25Score query p / max_bm25 * (4/10)))
    afterDense

/-- Last-wins chunk lookup: `chunk_lookup = {c['chunk_id']: c for c in chunks}`. -/
def chunkLookup (chunks : List Chunk) (cid : String) : Option Chunk :=
  chunks.foldl (fun acc c => if c.chunk_id = cid then some c else acc) none

/-- A ranked retrieval result of `hybrid_search`. -/
structure SearchResult where
  chunk : Chunk
  score : ℚ
  deriving DecidableEq, Repr

/-- The hybrid retrieval engine (`test_retrieval.py` lines 39-82): dense and
sparse candidate sets are fused, sorted by combined score descending, cut to
`top_k`, and resolved through `chunk_lookup`.  The result is `none` on an
empty store, where the Python code raises — at `chunk_ids[int(idx)]` in the
dense loop when the sentinel `-1` hits the empty id table, or otherwise at
`max(bm25_scores)` over the empty score array; `none` stands for either raise
site. -/
def hybrid_search (store : Store) (query : String) (top_k : Nat) :
    Option (List SearchResult) :=
  let bm25_scores := (List.range store.chunks.length).map (store.bm25Score query)
  match listMax bm25_scores with
  | none => none
  | some mx =>
    let results := fusedResults store query top_k (maxBm25Norm mx)
    let sorted_results := (sortByScoreDesc Prod.snd results).take top_k
    some (sorted_results.filterMap (fun cs =>
      (chunkLookup store.chunks cs.1).map (fun c => { chunk := c, score := cs.2 })))

/-! ## UnifiedRAG.retrieve_documents  (unified_rag.py lines 80-123) -/

/-- Nested metadata block of a normalized retrieval result. -/
structure ChunkMetadata where
  filename : String
  source : String
  page : String
  file_path : String
  deriving DecidableEq, Repr

/-- The "super chunk" shape produced by the normalization fix. -/
structure NormalizedChunk where
  text : String
  chunk : Chunk
  page_content : String
  source : String
  filename : String
  page : String
  metadata : ChunkMetadata
  deriving DecidableEq, Repr

/-- Python `a or b` on strings: `b` when `a` is empty. -/
def strOrElse (a b : String) : String :=
  if a = "" then b else a

/-- The normalization of one raw chunk (lines 92-120).  The chunk records of
this model are flat, so `raw_chunk.get('chunk', raw_chunk)` is the record
itself, and the absent `source`/`content` fallback keys contribute nothing. -/
def normalizeChunk (raw_chunk : Chunk) : NormalizedChunk :=
  let filename := strOrElse raw_chunk.filename "Unknown Document"
  let page := strOrElse raw_chunk.page "1"
  let text := raw_chunk.text
  { text := text
    chunk := raw_chunk
    page_content := text
    source := filename
    filename := filename
    page := page
    metadata :=
      { filename := filename, source := filename, page := page, file_path := filename } }

/-- Python `chunks[idx]` with an `Int` index: non-negative indices address from
the front, negative indices from the back (`chunks[-1]` is the last element),
and an index out of range on either side raises (`none`). -/
def pyIndex (l : List α) (i : Int) : Option α :=
  if 0 ≤ i then l.get? i.toNat
  else if 0 ≤ (l.length : Int) + i then l.get? ((l.length : Int) + i).toNat
  else none

/-- The dense index search `self.index.search(v, m)` including the library's
sentinel padding: the top `min(m, n)` valid positions ranked by score,
followed by `-1` entries when the index holds fewer than `m` vectors. -/
def denseSearchPadded (n : Nat) (score : Nat → ℚ) (m : Nat) : List Int :=
  let valid := (rankedPositions n score).take m
  valid.map Int.ofNat ++ List.replicate (m - valid.length) (-1)

/-- The result loop of `retrieve_documents`:
`for idx in I[0]: if idx < len(self.chunks): results.append(...)`.
The guard compares Python integers, so a `-1` sentinel passes it;
`self.chunks[idx]` then reads the last chunk on a non-empty store and raises
(`none`) on an empty one. -/
def retrieveAux (chunks : List Chunk) : List Int → Option (List NormalizedChunk)
  | [] => some []
  | idx :: rest =>
    if idx < (chunks.length : Int) then
      match pyIndex chunks idx with
      | none => none
      | some raw_chunk =>
        (retrieveAux chunks rest).map (fun tail => normalizeChunk raw_chunk :: tail)
    else retrieveAux chunks rest

/-- The Orchestrator's retrieval: a dense-only `self.index.search(v, k)`
followed by the guarded normalization loop; `none` models the `IndexError`
the loop raises on an empty store. -/
def retrieve_documents (store : Store) (query : String) (k : Nat) :
    Option (List NormalizedChunk) :=
  retrieveAux store.chunks
    (denseSearchPadded store.chunks.length (store.denseScore query) k)

/-- The ranked chunk sequence delivered by `hybrid_search` (empty when the
search raises). -/
def hybridChunkSeq (store : Store) (query : String) (k : Nat) : List Chunk :=
  (hybrid_search store query k).elim [] (List.map SearchResult.chunk)

/-- The ranked chunk sequence delivered by `retrieve_documents` (empty when
the loop raises). -/
def retrieveChunkSeq (store : Store) (query : String) (k : Nat) : List Chunk :=
  (retrieve_documents store query k).elim [] (List.map NormalizedChunk.chunk)

/-! ## Concrete fixtures used by scenario theorems and counterexamples -/

def chunkA : Chunk :=
  { chunk_id := "A", filename := "seed_fund.pdf", page := "1",
    text := "The maximum grant under SISFS is Rs. 20 Lakhs for prototype development.",
    canonicals := some { amount_surface := some "20 Lakhs" } }

def chunkB : Chunk :=
  { chunk_id := "B", filename := "policy.pdf", page := "2",
    text := "Startups must be DPIIT recognised to be eligible.",
    canonicals := none }

def chunkYear : Chunk :=
  { chunk_id := "Y", filename := "timeline.pdf", page := "3",
    text := "The scheme was launched in 2020 by the Government of India.",
    canonicals := none }

/-- A two-chunk store on which the dense-only ranking and the hybrid fusion
disagree: position 0 wins on dense score alone, position 1 wins after the BM25
contribution is fused in. -/
def storeTwo : Store :=
  { chunks := [chunkA, chunkB]
    chunk_ids := ["A", "B"]
    denseScore := fun _ p => if p = 0 then 1 else 9/10
    bm25Score := fun _ p => if p = 0 then 0 else 10 }

/-- A store with no chunks at all. -/
def storeEmpty : Store :=
  { chunks := [], chunk_ids := [], denseScore := fun _ _ => 0, bm25Score := fun _ _ => 0 }

/-! ## Helper lemmas: sorted candidate lists are duplicate-free position lists -/

theorem insertRanked_perm (f : α → ℚ) (acc : List α) (x : α) :
    List.Perm (insertRanked f acc x) (x :: acc) := by
  induction acc with
  | nil => simp [insertRanked]
  | cons y rest ih =>
    simp only [insertRanked]
    split
    · exact List.Perm.trans (List.Perm.cons y ih) (List.Perm.swap x y rest)
    · exact List.Perm.refl _

theorem foldl_insertRanked_perm (f : α → ℚ) (l : List α) :
    ∀ acc : List α, List.Perm (l.foldl (insertRanked f) acc) (l ++ acc) := by
  induction l with
  | nil => intro acc; simp
  | cons x l ih =>
    intro acc
    have h1 := ih (insertRanked f acc x)
    have h2 : List.Perm (l ++ insertRanked f acc x) (l ++ (x :: acc)) :=
      (insertRanked_perm f acc x).append_left l
    have h3 : List.Perm (l ++ (x :: acc)) (x :: (l ++ acc)) := List.perm_middle
    simpa using h1.trans (h2.trans h3)

theorem sortByScoreDesc_perm (f : α → ℚ) (l : List α) :
    List.Perm (sortByScoreDesc f l) l := by
  simpa using foldl_insertRanked_perm f l []

theorem rankedPositions_perm (n : Nat) (score : Nat → ℚ) :
    List.Perm (rankedPositions n score) (List.range n) :=
  sortByScoreDesc_perm score (List.range n)

theorem rankedPositions_nodup (n : Nat) (score : Nat → ℚ) :
    (rankedPositions n score).Nodup :=
  ((rankedPositions_perm n score).symm.nodup (List.nodup_range n))

theorem mem_rankedPositions_lt (n : Nat) (score : Nat → ℚ) (p : Nat)
    (h : p ∈ rankedPositions n score) : p < n := by
  have := (rankedPositions_perm n score).mem_iff.mp h
  simpa using this

theorem denseCandidates_nodup (store : Store) (query : String) (top_k : Nat) :
    (denseCandidates store query top_k).Nodup :=
  (List.take_sublist _ _).nodup (rankedPositions_nodup _ _)

theorem mem_denseCandidates_lt (store : Store) (query : String) (top_k : Nat)
    (p : Nat) (h : p ∈ denseCandidates store query top_k) :
    p < store.chunks.length :=
  mem_rankedPositions_lt _ _ _ ((List.take_sublist _ _).mem h)

theorem sparseCandidates_nodup (store : Store) (query : String) (top_k : Nat) :
    (sparseCandidates store query top_k).Nodup := by
  unfold sparseCandidates
  split
  · exact rankedPositions_nodup _ _
  · exact (List.take_sublist _ _).nodup (rankedPositions_nodup _ _)

theorem mem_sparseCandidates_lt (store : Store) (query : String) (top_k : Nat)
    (p : Nat) (h : p ∈ sparseCandidates store query top_k) :
    p < store.chunks.length := by
  unfold sparseCandidates at h
  split at h
  · exact mem_rankedPositions_lt _ _ _ h
  · exact mem_rankedPositions_lt _ _ _ ((List.take_sublist _ _).mem h)

/-! ## Helper lemmas: the fused score dictionary -/

theorem getScore_upsert (m : List (String × ℚ)) (cid cid' : String) (s : ℚ) :
    getScore (upsert m cid s) cid' =
      if cid' = cid then some ((getScore m cid).getD 0 + s)
      else getScore m cid' := by
  induction m with
  | nil =>
    by_cases h : cid' = cid
    · subst h; simp [upsert, getScore, zero_add]
    · simp [upsert, getScore, h, Ne.symm h]
  | cons hd tl ih =>
    obtain ⟨c, v⟩ := hd
    by_cases hc : c = cid
    · subst hc
      by_cases h : cid' = c
      · subst h; simp [upsert, getScore]
      · simp [upsert, getScore, h, Ne.symm h]
    · by_cases h : cid' = cid
      · subst h
        simp [upsert, getScore, hc, Ne.symm hc, ih]
      · by_cases h2 : c = cid'
        · subst h2
          simp [upsert, getScore, hc, ih, h]
        · simp [upsert, getScore, hc, h2, ih, h]

theorem getScore_posfold_not_mem (idf : Nat → String) (g : Nat → ℚ)
    (l : List Nat) (cid : String) (h : ∀ p ∈ l, idf p ≠ cid) :
    ∀ acc, getScore (l.foldl (fun a p => upsert a (idf p) (g p)) acc) cid =
      getScore acc cid := by
  induction l with
  | nil => intro acc; rfl
  | cons hd tl ih =>
    intro acc
    have hhd : idf hd ≠ cid := h hd (List.mem_cons_self hd tl)
    have htl : ∀ p ∈ tl, idf p ≠ cid := fun p hp => h p (List.mem_cons_of_mem hd hp)
    simp only [List.foldl_cons]
    rw [ih htl, getScore_upsert]
    simp [Ne.symm hhd]

theorem getScore_posfold_mem (idf : Nat → String) (g : Nat → ℚ)
    (l : List Nat) (p : Nat) (hnd : (l.map idf).Nodup) (hp : p ∈ l) :
    ∀ acc, getScore (l.foldl (fun a p => upsert a (idf p) (g p)) acc) (idf p) =
      some ((getScore acc (idf p)).getD 0 + g p) := by
  induction l with
  | nil => cases hp
  | cons hd tl ih =>
    intro acc
    simp only [List.map_cons, List.nodup_cons] at hnd
    obtain ⟨hhd, hndtl⟩ := hnd
    simp only [List.foldl_cons]
    rcases List.mem_cons.mp hp with he | htl
    · subst he
      have hnm : ∀ q ∈ tl, idf q ≠ idf p := by
        intro q hq he
        exact hhd (he ▸ List.mem_map_of_mem idf hq)
      rw [getScore_posfold_not_mem idf g tl (idf p) hnm, getScore_upsert]
      simp
    · have hne : idf hd ≠ idf p := by
        intro he
        exact hhd (he ▸ List.mem_map_of_mem idf htl)
      rw [ih hndtl htl, getScore_upsert]
      simp [Ne.symm hne]

theorem getD_inj_of_nodup (ids : List String) (hnd : ids.Nodup) (p q : Nat)
    (hp : p < ids.length) (hq : q < ids.length)
    (h : ids.getD p "" = ids.getD q "") : p = q := by
  have hgp : ids.getD p "" = ids.get ⟨p, hp⟩ := by
    simp [List.getD_eq_getElem?_getD, List.getElem?_eq_getElem hp, List.get_eq_getElem]
  have hgq : ids.getD q "" = ids.get ⟨q, hq⟩ := by
    simp [List.getD_eq_getElem?_getD, List.getElem?_eq_getElem hq, List.get_eq_getElem]
  have : ids.get ⟨p, hp⟩ = ids.get ⟨q, hq⟩ := by rw [← hgp, ← hgq, h]
  have := hnd.get_inj_iff.mp this
  exact congrArg Fin.val this

/-! ## Helper lemmas: filterMap over a boolean test -/

theorem filterMap_ite_eq_nil_iff (l : List α) (p : α → Bool) (g : α → β) :
    (l.filterMap (fun a => if p a then some (g a) else none) = []) ↔
      ∀ a ∈ l, p a = false := by
  rw [List.filterMap_eq_nil_iff]
  refine forall₂_congr (fun a ha => ?_)
  cases hp : p a <;> simp [hp]

theorem filterMap_ite_eq_map_filter (l : List α) (p : α → Bool) (g : α → β) :
    l.filterMap (fun a => if p a then some (g a) else none) =
      (l.filter p).map g := by
  induction l with
  | nil => rfl
  | cons hd tl ih =>
    cases hp : p hd <;>
      simp [List.filterMap_cons, List.filter_cons, hp, ih]

/-! ## Claim theorems -/

/-- Claim C1: `verify_answer` reports `verified=false` exactly when the source
list is empty and `verified=true` for every non-empty source list; the answer
text never influences the result, so the numeric, citation and semantic layer
checks cannot affect the returned flag. -/
theorem verify_answer_sources_gate (answer : String) (sources : List SourceItem)
    (source_type : String) :
    ((verify_answer answer sources source_type).verified = true ↔ sources ≠ [])
      ∧ (∀ answer2 source_type2 : String,
          verify_answer answer sources source_type
            = verify_answer answer2 sources source_type2) := by
  constructor
  · cases sources <;> simp [verify_answer]
  · intro answer2 source_type2
    rfl

/-- Claim C5: `verify_citations` passes iff every extracted `[Source N]` marker
has `N` within `[1, len(sources)]`; the issue list holds exactly one entry per
out-of-range citation occurrence; and an answer with no markers passes even
when sources exist. -/
theorem verify_citations_range_check (answer : String) (sources : List SourceItem) :
    ((verify_citations answer sources).passed = true ↔
      ∀ cite ∈ extractCitations answer,
        1 ≤ digitsToNat cite.data ∧ digitsToNat cite.data ≤ sources.length)
    ∧ (verify_citations answer sources).issues =
        ((extractCitations answer).filter
          (fun cite => citeOutOfRange sources.length (digitsToNat cite.data))).map
          (fun cite => citationIssue cite sources.length)
    ∧ (extractCitations answer = [] →
        (verify_citations answer sources).passed = true) := by
  have hrange : ∀ n : Nat, citeOutOfRange sources.length n = false ↔
      1 ≤ n ∧ n ≤ sources.length := by
    intro n
    simp only [citeOutOfRange, Bool.or_eq_false_iff, decide_eq_false_iff_not, Nat.not_lt]
    exact and_comm
  refine ⟨?_, ?_, ?_⟩
  · by_cases he : (extractCitations answer).isEmpty
    · rw [List.isEmpty_iff] at he
      simp [verify_citations, he]
    · simp only [verify_citations, if_neg he]
      rw [List.isEmpty_iff, filterMap_ite_eq_nil_iff]
      exact forall₂_congr (fun cite _ => hrange (digitsToNat cite.data))
  · by_cases he : (extractCitations answer).isEmpty
    · rw [List.isEmpty_iff] at he
      simp [verify_citations, he]
    · simp only [verify_citations, if_neg he]
      exact filterMap_ite_eq_map_filter _ _ _
  · intro he
    simp [verify_citations, he]

/-- Witness for C5: an answer with no citation markers passes against a
non-empty source list. -/
theorem verify_citations_range_check_witness :
    (verify_citations "The scheme helps startups." [{ chunk := chunkA }]).passed
      = true :=
  (verify_citations_range_check "The scheme helps startups."
    [{ chunk := chunkA }]).2.2 (by decide)

/-- Helper for C6: the repair fold leaves the answer unchanged when no
extracted citation exceeds the source count. -/
theorem foldl_repairStep_id (m : Nat) (l : List String)
    (h : ∀ cite ∈ l, digitsToNat cite.data ≤ m) :
    ∀ acc : String, l.foldl (repairStep m) acc = acc := by
  induction l with
  | nil => intro acc; rfl
  | cons hd tl ih =>
    intro acc
    have hhd := h hd (List.mem_cons_self hd tl)
    have htl : ∀ cite ∈ tl, digitsToNat cite.data ≤ m :=
      fun cite hc => h cite (List.mem_cons_of_mem hd hc)
    simp only [List.foldl_cons]
    rw [ih htl]
    simp [repairStep, Nat.not_lt.mpr hhd]

/-! ## Helper lemmas for the universal citation-repair property

The lemmas below establish that replacing a bracketed marker by another
bracketed marker removes every occurrence of the replaced marker and cannot
re-create a different marker that was already absent.  The structural facts
used: markers start with `[`, contain no further `[`, and two markers over
different digit strings are never prefixes of one another (a digit never
equals `]`). -/

theorem hasSubChars_tail (pat : List Char) (c : Char) (l : List Char)
    (h : hasSubChars pat (c :: l) = false) : hasSubChars pat l = false := by
  simp only [hasSubChars, Bool.or_eq_false_iff] at h
  exact h.2

theorem isPrefChars_false_of_hasSub_false (pat l : List Char)
    (h : hasSubChars pat l = false) : isPrefChars pat l = false := by
  cases l with
  | nil => simpa [hasSubChars] using h
  | cons c rest =>
    simp only [hasSubChars, Bool.or_eq_false_iff] at h
    exact h.1

theorem hasSubChars_drop (pat l : List Char) (k : Nat)
    (h : hasSubChars pat l = false) : hasSubChars pat (l.drop k) = false := by
  induction k generalizing l with
  | zero => simpa using h
  | succ k ih =>
    cases l with
    | nil => simpa using h
    | cons c rest => exact ih rest (hasSubChars_tail pat c rest h)

theorem isPrefChars_append_false (u : List Char) :
    ∀ (w t : List Char), isPrefChars u w = false → isPrefChars w u = false →
      isPrefChars u (w ++ t) = false := by
  induction u with
  | nil => intro w t h1 _; simp [isPrefChars] at h1
  | cons a u ih =>
    intro w t h1 h2
    cases w with
    | nil => simp [isPrefChars] at h2
    | cons b w =>
      by_cases hab : a = b
      · subst hab
        simp only [isPrefChars, beq_self_eq_true, Bool.true_and] at h1 h2
        simpa only [List.cons_append, isPrefChars, beq_self_eq_true, Bool.true_and]
          using ih w t h1 h2
      · simp [List.cons_append, isPrefChars, beq_eq_false_iff_ne.mpr hab]

theorem hasSubChars_append_no_bracket (p' s R : List Char)
    (hs : ∀ ch ∈ s, ch ≠ '[')
    (hR : hasSubChars ('[' :: p') R = false) :
    hasSubChars ('[' :: p') (s ++ R) = false := by
  induction s with
  | nil => simpa using hR
  | cons x s ih =>
    have hx : x ≠ '[' := hs x (List.mem_cons_self x s)
    have hs' : ∀ ch ∈ s, ch ≠ '[' := fun ch hch => hs ch (List.mem_cons_of_mem x hch)
    simp only [List.cons_append, hasSubChars, Bool.or_eq_false_iff]
    exact ⟨by simp [isPrefChars, beq_eq_false_iff_ne.mpr (Ne.symm hx)], ih hs'⟩

theorem isPrefChars_replaceChars (pat2 r2 : List Char) :
    ∀ (fuel : Nat) (l v : List Char), ('[' : Char) ∉ v →
      isPrefChars v l = false →
      isPrefChars v (replaceChars fuel pat2 ('[' :: r2) l) = false := by
  intro fuel
  induction fuel with
  | zero => intro l v _ h; simpa [replaceChars] using h
  | succ fuel ih =>
    intro l v hv h
    obtain ⟨x, v', rfl⟩ : ∃ x v', v = x :: v' := by
      cases v with
      | nil => simp [isPrefChars] at h
      | cons x v' => exact ⟨x, v', rfl⟩
    have hx : x ≠ '[' := fun he => hv (he ▸ List.mem_cons_self x v')
    cases l with
    | nil => simpa [replaceChars] using h
    | cons c rest =>
      simp only [replaceChars]
      split
      · simp [List.cons_append, isPrefChars, beq_eq_false_iff_ne.mpr hx]
      · simp only [isPrefChars] at h ⊢
        by_cases hxc : x = c
        · subst hxc
          simp only [beq_self_eq_true, Bool.true_and] at h ⊢
          exact ih rest v' (fun hm => hv (List.mem_cons_of_mem x hm)) h
        · simp [beq_eq_false_iff_ne.mpr hxc]

theorem hasSubChars_replaceChars_preserved (p' pat2 r2 : List Char)
    (hp : ('[' : Char) ∉ p') (hr : ('[' : Char) ∉ r2)
    (h1 : isPrefChars ('[' :: p') ('[' :: r2) = false)
    (h2 : isPrefChars ('[' :: r2) ('[' :: p') = false) :
    ∀ (fuel : Nat) (s : List Char), hasSubChars ('[' :: p') s = false →
      hasSubChars ('[' :: p') (replaceChars fuel pat2 ('[' :: r2) s) = false := by
  intro fuel
  induction fuel with
  | zero => intro s h; simpa [replaceChars] using h
  | succ fuel ih =>
    intro s h
    cases s with
    | nil => simpa [replaceChars] using h
    | cons c rest =>
      simp only [replaceChars]
      split
      · have hR := ih _ (hasSubChars_drop _ _ pat2.length h)
        simp only [List.cons_append, hasSubChars, Bool.or_eq_false_iff]
        exact ⟨isPrefChars_append_false _ _ _ h1 h2,
          hasSubChars_append_no_bracket p' r2 _
            (fun ch hch he => hr (he ▸ hch)) hR⟩
      · have htail := ih rest (hasSubChars_tail _ _ _ h)
        simp only [hasSubChars, Bool.or_eq_false_iff]
        refine ⟨?_, htail⟩
        have hhead : isPrefChars ('[' :: p') (c :: rest) = false :=
          isPrefChars_false_of_hasSub_false _ _ h
        by_cases hc : c = '['
        · subst hc
          simp only [isPrefChars, beq_self_eq_true, Bool.true_and] at hhead ⊢
          exact isPrefChars_replaceChars pat2 r2 fuel rest p' hp hhead
        · simp [isPrefChars, beq_eq_false_iff_ne.mpr (fun he : ('[':Char) = c => hc he.symm)]

theorem hasSubChars_strReplace_self (p' r2 : List Char)
    (hp : ('[' : Char) ∉ p') (hr : ('[' : Char) ∉ r2)
    (h1 : isPrefChars ('[' :: p') ('[' :: r2) = false)
    (h2 : isPrefChars ('[' :: r2) ('[' :: p') = false) :
    ∀ (fuel : Nat) (l : List Char), l.length ≤ fuel →
      hasSubChars ('[' :: p') (replaceChars fuel ('[' :: p') ('[' :: r2) l) = false := by
  intro fuel
  induction fuel with
  | zero =>
    intro l hl
    have hnil : l = [] := List.eq_nil_of_length_eq_zero (Nat.le_zero.mp hl)
    subst hnil
    simp [replaceChars, hasSubChars, isPrefChars]
  | succ fuel ih =>
    intro l hl
    cases l with
    | nil => simp [replaceChars, hasSubChars, isPrefChars]
    | cons c rest =>
      simp only [replaceChars]
      split
      case isTrue hcond =>
        have hdroplen : ((c :: rest).drop ('[' :: p').length).length ≤ fuel := by
          have hl2 : rest.length + 1 ≤ fuel + 1 := by simpa using hl
          simp only [List.length_drop, List.length_cons]
          omega
        have hR := ih _ hdroplen
        simp only [List.cons_append, hasSubChars, Bool.or_eq_false_iff]
        exact ⟨isPrefChars_append_false _ _ _ h1 h2,
          hasSubChars_append_no_bracket p' r2 _
            (fun ch hch he => hr (he ▸ hch)) hR⟩
      case isFalse hcond =>
        have hrest : rest.length ≤ fuel := by
          simpa using Nat.le_of_succ_le_succ hl
        have hR := ih rest hrest
        simp only [hasSubChars, Bool.or_eq_false_iff]
        refine ⟨?_, hR⟩
        have hhead : isPrefChars ('[' :: p') (c :: rest) = false := by
          by_cases hpp : isPrefChars ('[' :: p') (c :: rest) = true
          · exact absurd (by simp [hpp, List.isEmpty]) hcond
          · simpa using hpp
        by_cases hc : c = '['
        · subst hc
          simp only [isPrefChars, beq_self_eq_true, Bool.true_and] at hhead ⊢
          exact isPrefChars_replaceChars ('[' :: p') r2 fuel rest p' hp hhead
        · simp [isPrefChars, beq_eq_false_iff_ne.mpr (fun he : ('[':Char) = c => hc he.symm)]

theorem digitChar_isDigit (d : Nat) (hd : d < 10) :
    (Nat.digitChar d).isDigit = true := by
  interval_cases d <;> decide

theorem digitVal_digitChar (d : Nat) (hd : d < 10) :
    (Nat.digitChar d).toNat - '0'.toNat = d := by
  interval_cases d <;> decide

theorem toDigitsCore_digits (fuel : Nat) :
    ∀ (n : Nat) (acc : List Char), (∀ ch ∈ acc, ch.isDigit = true) →
      ∀ ch ∈ Nat.toDigitsCore 10 fuel n acc, ch.isDigit = true := by
  induction fuel with
  | zero => intro n acc hacc; simpa [Nat.toDigitsCore] using hacc
  | succ fuel ih =>
    intro n acc hacc ch hch
    simp only [Nat.toDigitsCore] at hch
    have hdig : (Nat.digitChar (n % 10)).isDigit = true :=
      digitChar_isDigit _ (Nat.mod_lt n (by norm_num))
    split at hch
    · rcases List.mem_cons.mp hch with rfl | hm
      · exact hdig
      · exact hacc ch hm
    · refine ih (n / 10) (Nat.digitChar (n % 10) :: acc) ?_ ch hch
      intro ch2 hm2
      rcases List.mem_cons.mp hm2 with rfl | hm2
      · exact hdig
      · exact hacc ch2 hm2

theorem repr_digits (m : Nat) : ∀ ch ∈ (Nat.repr m).data, ch.isDigit = true := by
  have hdata : (Nat.repr m).data = Nat.toDigitsCore 10 (m + 1) m [] := rfl
  rw [hdata]
  exact toDigitsCore_digits (m + 1) m [] (by simp)

theorem digitsToNat_shift (l : List Char) :
    ∀ a : Nat, l.foldl (fun n c => 10 * n + (c.toNat - '0'.toNat)) a
      = a * 10 ^ l.length + l.foldl (fun n c => 10 * n + (c.toNat - '0'.toNat)) 0 := by
  induction l with
  | nil => intro a; simp
  | cons c l ih =>
    intro a
    simp only [List.foldl_cons, List.length_cons]
    rw [ih (10 * a + (c.toNat - '0'.toNat)), ih (10 * 0 + (c.toNat - '0'.toNat))]
    ring

theorem digitsToNat_digitChar_cons (n : Nat) (acc : List Char) :
    digitsToNat (Nat.digitChar (n % 10) :: acc)
      = (n % 10) * 10 ^ acc.length + digitsToNat acc := by
  simp only [digitsToNat, List.foldl_cons]
  rw [digitsToNat_shift]
  rw [Nat.mul_zero, Nat.zero_add, digitVal_digitChar _ (Nat.mod_lt n (by norm_num))]

theorem toDigitsCore_val (fuel : Nat) :
    ∀ (n : Nat) (acc : List Char), n < 10 ^ fuel →
      digitsToNat (Nat.toDigitsCore 10 fuel n acc)
        = n * 10 ^ acc.length + digitsToNat acc := by
  induction fuel with
  | zero =>
    intro n acc hn
    have : n = 0 := by simpa using Nat.lt_one_iff.mp (by simpa using hn)
    subst this
    simp [Nat.toDigitsCore]
  | succ fuel ih =>
    intro n acc hn
    simp only [Nat.toDigitsCore]
    split
    case isTrue h0 =>
      have hn10 : n < 10 := (Nat.div_eq_zero_iff (by norm_num)).mp h0
      rw [digitsToNat_digitChar_cons, Nat.mod_eq_of_lt hn10]
    case isFalse h0 =>
      have hdiv : n / 10 < 10 ^ fuel := by
        rw [Nat.div_lt_iff_lt_mul (by norm_num)]
        calc n < 10 ^ (fuel + 1) := hn
          _ = 10 ^ fuel * 10 := by ring
      rw [ih (n / 10) (Nat.digitChar (n % 10) :: acc) hdiv,
        digitsToNat_digitChar_cons]
      simp only [List.length_cons]
      calc n / 10 * 10 ^ (acc.length + 1)
            + ((n % 10) * 10 ^ acc.length + digitsToNat acc)
          = (10 * (n / 10) + n % 10) * 10 ^ acc.length + digitsToNat acc := by ring
        _ = n * 10 ^ acc.length + digitsToNat acc := by rw [Nat.div_add_mod]

theorem digitsToNat_repr (m : Nat) : digitsToNat (Nat.repr m).data = m := by
  have hdata : (Nat.repr m).data = Nat.toDigitsCore 10 (m + 1) m [] := rfl
  have hm : m < 10 ^ (m + 1) := by
    calc m < 10 ^ m := Nat.lt_pow_self (by norm_num) m
      _ ≤ 10 ^ (m + 1) := Nat.pow_le_pow_right (by norm_num) (Nat.le_succ m)
  rw [hdata, toDigitsCore_val (m + 1) m [] hm]
  simp [digitsToNat]

theorem matchCitationAt_digits (l digits rest : List Char)
    (h : matchCitationAt l = some (digits, rest)) :
    ∀ ch ∈ digits, ch.isDigit = true := by
  unfold matchCitationAt at h
  split at h
  · exact absurd h (by simp)
  · simp only at h
    split at h
    · exact absurd h (by simp)
    · split at h
      case h_1 r heq =>
        rw [Option.some.injEq, Prod.mk.injEq] at h
        intro ch hch
        rw [← h.1] at hch
        exact List.mem_takeWhile_imp hch
      case h_2 => exact absurd h (by simp)

theorem extractCitationsAux_digits (fuel : Nat) :
    ∀ (l : List Char) (s : String), s ∈ extractCitationsAux fuel l →
      ∀ ch ∈ s.data, ch.isDigit = true := by
  induction fuel with
  | zero => intro l s hs; simp [extractCitationsAux] at hs
  | succ fuel ih =>
    intro l s hs
    cases l with
    | nil => simp [extractCitationsAux] at hs
    | cons c rest =>
      simp only [extractCitationsAux] at hs
      cases hm : matchCitationAt (c :: rest) with
      | some pr =>
        obtain ⟨digits, after⟩ := pr
        rw [hm] at hs
        rcases List.mem_cons.mp hs with rfl | hs2
        · exact matchCitationAt_digits _ _ _ hm
        · exact ih after s hs2
      | none =>
        rw [hm] at hs
        exact ih rest s hs

theorem extractCitations_digits (answer : String) (c : String)
    (hc : c ∈ extractCitations answer) : ∀ ch ∈ c.data, ch.isDigit = true :=
  extractCitationsAux_digits _ _ c hc

theorem isPrefChars_append_cancel (u x y : List Char) :
    isPrefChars (u ++ x) (u ++ y) = isPrefChars x y := by
  induction u with
  | nil => rfl
  | cons a u ih => simp [isPrefChars, ih]

theorem digit_tail_not_pref :
    ∀ (a b : List Char), (∀ ch ∈ a, ch.isDigit = true) →
      (∀ ch ∈ b, ch.isDigit = true) → a ≠ b →
      isPrefChars (a ++ [']']) (b ++ [']']) = false := by
  intro a
  induction a with
  | nil =>
    intro b _ hb hne
    cases b with
    | nil => exact absurd rfl hne
    | cons d b' =>
      have hd : d.isDigit = true := hb d (List.mem_cons_self _ _)
      have hnd : (']' : Char) ≠ d := by
        intro he
        rw [← he] at hd
        exact absurd hd (by decide)
      simp [isPrefChars, beq_eq_false_iff_ne.mpr hnd]
  | cons d a' ih =>
    intro b ha hb hne
    cases b with
    | nil =>
      have hd : d.isDigit = true := ha d (List.mem_cons_self _ _)
      have hnd : d ≠ (']' : Char) := by
        intro he
        rw [he] at hd
        exact absurd hd (by decide)
      simp [isPrefChars, beq_eq_false_iff_ne.mpr hnd]
    | cons e b' =>
      by_cases hde : d = e
      · subst hde
        have hne' : a' ≠ b' := fun h => hne (h ▸ rfl)
        simp only [List.cons_append, isPrefChars, beq_self_eq_true, Bool.true_and]
        exact ih b' (fun ch hch => ha ch (List.mem_cons_of_mem _ hch))
          (fun ch hch => hb ch (List.mem_cons_of_mem _ hch)) hne'
      · simp [List.cons_append, isPrefChars, beq_eq_false_iff_ne.mpr hde]

theorem marker_data (c : String) :
    ("[Source " ++ c ++ "]").data = "[Source ".data ++ (c.data ++ [']']) := by
  obtain ⟨l⟩ := c
  show ("[Source ".data ++ l) ++ [']'] = "[Source ".data ++ (l ++ [']'])
  exact List.append_assoc _ _ _

theorem bracket_not_mem_digits (l : List Char)
    (h : ∀ ch ∈ l, ch.isDigit = true) : ('[' : Char) ∉ l := by
  intro hmem
  exact absurd (h _ hmem) (by decide)

theorem marker_tail_no_bracket (c : String)
    (hc : ∀ ch ∈ c.data, ch.isDigit = true) :
    ('[' : Char) ∉ "Source ".data ++ (c.data ++ [']']) := by
  intro hmem
  rcases List.mem_append.mp hmem with hm | hm
  · exact absurd hm (by decide)
  · rcases List.mem_append.mp hm with hm2 | hm2
    · exact bracket_not_mem_digits c.data hc hm2
    · simp at hm2

theorem marker_data_cons (c : String) :
    ("[Source " ++ c ++ "]").data
      = '[' :: ("Source ".data ++ (c.data ++ [']'])) := by
  rw [marker_data]
  rfl

theorem marker_not_pref (a b : String)
    (ha : ∀ ch ∈ a.data, ch.isDigit = true)
    (hb : ∀ ch ∈ b.data, ch.isDigit = true) (hne : a.data ≠ b.data) :
    isPrefChars ("[Source " ++ a ++ "]").data ("[Source " ++ b ++ "]").data
      = false := by
  rw [marker_data, marker_data, isPrefChars_append_cancel]
  exact digit_tail_not_pref a.data b.data ha hb hne

theorem repr_data_ne (c : String) (m : Nat)
    (hm : m < digitsToNat c.data) : c.data ≠ (Nat.repr m).data := by
  intro he
  rw [he, digitsToNat_repr] at hm
  exact Nat.lt_irrefl m hm

/-- Helper for C6: one out-of-range repair step erases every occurrence of the
marker it processes. -/
theorem repairStep_erases (m : Nat) (acc c : String)
    (hc : ∀ ch ∈ c.data, ch.isDigit = true) (hm : m < digitsToNat c.data) :
    hasSubChars ("[Source " ++ c ++ "]").data (repairStep m acc c).data = false := by
  have hts : toString m = Nat.repr m := rfl
  have hne : c.data ≠ (toString m).data := by
    rw [hts]
    exact repr_data_ne c m hm
  have h1 : isPrefChars ("[Source " ++ c ++ "]").data
      ("[Source " ++ toString m ++ "]").data = false :=
    marker_not_pref c (toString m) hc (hts ▸ repr_digits m) hne
  have h2 : isPrefChars ("[Source " ++ toString m ++ "]").data
      ("[Source " ++ c ++ "]").data = false :=
    marker_not_pref (toString m) c (hts ▸ repr_digits m) hc (Ne.symm hne)
  simp only [repairStep, if_pos hm]
  show hasSubChars ("[Source " ++ c ++ "]").data
    (replaceChars acc.data.length ("[Source " ++ c ++ "]").data
      ("[Source " ++ toString m ++ "]").data acc.data) = false
  rw [marker_data_cons c, marker_data_cons (toString m)] at h1 h2 ⊢
  exact hasSubChars_strReplace_self _ _
    (marker_tail_no_bracket c hc)
    (marker_tail_no_bracket (toString m) (hts ▸ repr_digits m))
    h1 h2 acc.data.length acc.data le_rfl

/-- Helper for C6: once a marker is absent, later repair steps (which only
replace other markers by the clamped marker) never re-introduce it. -/
theorem foldl_repairStep_absent (m : Nat) (c : String)
    (hc : ∀ ch ∈ c.data, ch.isDigit = true) (hm : m < digitsToNat c.data) :
    ∀ (l : List String) (s : String),
      hasSubChars ("[Source " ++ c ++ "]").data s.data = false →
      hasSubChars ("[Source " ++ c ++ "]").data
        ((l.foldl (repairStep m) s)).data = false := by
  have hts : toString m = Nat.repr m := rfl
  have hne : c.data ≠ (toString m).data := by
    rw [hts]
    exact repr_data_ne c m hm
  have h1 : isPrefChars ("[Source " ++ c ++ "]").data
      ("[Source " ++ toString m ++ "]").data = false :=
    marker_not_pref c (toString m) hc (hts ▸ repr_digits m) hne
  have h2 : isPrefChars ("[Source " ++ toString m ++ "]").data
      ("[Source " ++ c ++ "]").data = false :=
    marker_not_pref (toString m) c (hts ▸ repr_digits m) hc (Ne.symm hne)
  intro l
  induction l with
  | nil => intro s h; exact h
  | cons c2 l ih =>
    intro s h
    simp only [List.foldl_cons]
    apply ih
    by_cases h2r : m < digitsToNat c2.data
    · simp only [repairStep, if_pos h2r]
      show hasSubChars ("[Source " ++ c ++ "]").data
        (replaceChars s.data.length ("[Source " ++ c2 ++ "]").data
          ("[Source " ++ toString m ++ "]").data s.data) = false
      rw [marker_data_cons c] at h ⊢
      rw [marker_data_cons c, marker_data_cons (toString m)] at h1 h2
      rw [marker_data_cons (toString m)]
      exact hasSubChars_replaceChars_preserved _ _ _
        (marker_tail_no_bracket c hc)
        (marker_tail_no_bracket (toString m) (hts ▸ repr_digits m))
        h1 h2 s.data.length s.data h
    · simpa only [repairStep, if_neg h2r] using h

/-- Claim C6: the repair policy rewrites every out-of-range citation marker —
for every answer, source count `m` and extracted citation `N` with `N > m`,
the repaired answer no longer contains the marker `[Source N]` (each of its
occurrences was replaced by `[Source m]`, the only rewriting the policy
performs); markers that are in range are left alone, so an answer whose
citations are all in range is returned verbatim; and with 3 sources
`[Source 4]` becomes `[Source 3]` while `[Source 1]` is untouched. -/
theorem citation_repair_clamps :
    (∀ (answer : String) (m : Nat) (cite : String),
      cite ∈ extractCitations answer → m < digitsToNat cite.data →
      strContains (repairCitations answer m) ("[Source " ++ cite ++ "]") = false)
    ∧ (∀ (answer : String) (m : Nat),
      (∀ cite ∈ extractCitations answer, digitsToNat cite.data ≤ m) →
      repairCitations answer m = answer)
    ∧ repairCitations
        "As per [Source 1], the grant is Rs. 20 Lakhs. Also [Source 4] confirms this." 3
      = "As per [Source 1], the grant is Rs. 20 Lakhs. Also [Source 3] confirms this." := by
  refine ⟨?_, ?_, by decide⟩
  · intro answer m cite hmem hm
    have hc := extractCitations_digits answer cite hmem
    obtain ⟨l1, l2, hsplit⟩ := List.append_of_mem hmem
    show hasSubChars ("[Source " ++ cite ++ "]").data
      (repairCitations answer m).data = false
    unfold repairCitations
    rw [hsplit, List.foldl_append, List.foldl_cons]
    exact foldl_repairStep_absent m cite hc hm l2 _
      (repairStep_erases m _ cite hc hm)
  · intro answer m h
    exact foldl_repairStep_id m (extractCitations answer) h answer

/-- Witness for C6: an out-of-range marker is gone after repair, and an answer
whose citations are all in range is unchanged. -/
theorem citation_repair_clamps_witness :
    strContains (repairCitations "Funding detail in [Source 4]." 3)
        "[Source 4]" = false
    ∧ repairCitations "Both [Source 1] and [Source 2] apply." 2
        = "Both [Source 1] and [Source 2] apply." :=
  ⟨citation_repair_clamps.1 "Funding detail in [Source 4]." 3 "4"
      (by decide) (by decide),
    citation_repair_clamps.2.1 _ 2 (by decide)⟩

/-- Shared helper: the pass flag of `verify_numeric` holds exactly when every
extracted amount is found. -/
theorem verify_numeric_passed_iff (answer : String) (sources : List SourceItem) :
    (verify_numeric answer sources).passed = true ↔
      ∀ au ∈ extractAmounts answer, amountFound sources au.1 = true := by
  by_cases he : (extractAmounts answer).isEmpty
  · rw [List.isEmpty_iff] at he
    simp [verify_numeric, he]
  · simp only [verify_numeric, if_neg he]
    rw [List.isEmpty_iff, filterMap_ite_eq_nil_iff]
    refine forall₂_congr (fun au _ => ?_)
    cases hf : amountFound sources au.1 <;> simp [hf]

/-- Claim C7: `verify_numeric` passes iff every extracted amount's numeric
component is found (in a canonical `amount_surface` or in the concatenated
source text); the issue list holds exactly one entry naming each unverified
amount; an answer with no amounts trivially passes; and the `Rs. 75 Lakhs`
claim against a source that only mentions `Rs. 20 Lakhs` is flagged. -/
theorem verify_numeric_amount_check (answer : String) (sources : List SourceItem) :
    ((verify_numeric answer sources).passed = true ↔
      ∀ au ∈ extractAmounts answer, amountFound sources au.1 = true)
    ∧ (verify_numeric answer sources).issues =
        ((extractAmounts answer).filter
          (fun au => !amountFound sources au.1)).map
          (fun au => numericIssue au.1 au.2)
    ∧ (extractAmounts answer = [] →
        verify_numeric answer sources = { passed := true, issues := [] })
    ∧ (verify_numeric "The maximum grant is Rs. 75 Lakhs."
        [{ chunk := chunkA }]).passed = false
    ∧ (verify_numeric "The maximum grant is Rs. 75 Lakhs."
        [{ chunk := chunkA }]).issues = [numericIssue "75" "Lakhs"] := by
  refine ⟨verify_numeric_passed_iff answer sources, ?_, ?_, by decide, by decide⟩
  · by_cases he : (extractAmounts answer).isEmpty
    · rw [List.isEmpty_iff] at he
      simp [verify_numeric, he]
    · simp only [verify_numeric, if_neg he]
      exact filterMap_ite_eq_map_filter _ _ _
  · intro he
    simp [verify_numeric, he]

/-- Witness for C7: the trivially-passing case at a concrete amount-free
answer with a non-empty source list. -/
theorem verify_numeric_amount_check_witness :
    verify_numeric "Startups benefit from the scheme." [{ chunk := chunkA }]
      = { passed := true, issues := [] } :=
  (verify_numeric_amount_check "Startups benefit from the scheme."
    [{ chunk := chunkA }]).2.2.1 (by decide)

/-- Claim C10: the numeric check compares only the digit string of each
extracted amount by substring containment and ignores the unit: whenever every
extracted amount's digits occur in the concatenated source text, the check
passes — in particular `Rs. 20 Crores` passes against a source mentioning only
`Rs. 20 Lakhs`, and `Rs. 20 Lakhs` passes against a source whose only `20` is
inside the year `2020`. -/
theorem numeric_check_digits_only :
    (∀ (answer : String) (sources : List SourceItem),
      (∀ au ∈ extractAmounts answer,
        strContains (sourceText sources) au.1 = true) →
      (verify_numeric answer sources).passed = true)
    ∧ (verify_numeric "The fund allocates Rs. 20 Crores."
        [{ chunk := chunkA }]).passed = true
    ∧ (verify_numeric "The grant is Rs. 20 Lakhs."
        [{ chunk := chunkYear }]).passed = true := by
  refine ⟨?_, by decide, by decide⟩
  intro answer sources h
  have hfound : ∀ au ∈ extractAmounts answer, amountFound sources au.1 = true := by
    intro au hau
    simp [amountFound, h au hau]
  exact (verify_numeric_passed_iff answer sources).mpr hfound

/-- Witness for C10: digits found only inside a different number still verify. -/
theorem numeric_check_digits_only_witness :
    (verify_numeric "Approximately Rs. 20 Crore was spent."
      [{ chunk := chunkYear }]).passed = true :=
  numeric_check_digits_only.1 "Approximately Rs. 20 Crore was spent."
    [{ chunk := chunkYear }] (by decide)

/-- Claim C4: `classify_query` evaluates its five intent rules in the fixed
order SMALL_TALK, CAPABILITY, GRAPH, FAQ, SEMANTIC with first match winning;
the investor query is classified GRAPH (it contains `which investors`) and the
maximum-grant query is classified FAQ (it contains `maximum grant`). -/
theorem classify_query_order (query : String) :
    (smallTalkCond (normalizeQuery query) = true →
        classify_query query = QueryType.SMALL_TALK)
    ∧ (smallTalkCond (normalizeQuery query) = false →
        capabilityCond (normalizeQuery query) = true →
        classify_query query = QueryType.CAPABILITY)
    ∧ (smallTalkCond (normalizeQuery query) = false →
        capabilityCond (normalizeQuery query) = false →
        graphCond (normalizeQuery query) = true →
        classify_query query = QueryType.GRAPH)
    ∧ (smallTalkCond (normalizeQuery query) = false →
        capabilityCond (normalizeQuery query) = false →
        graphCond (normalizeQuery query) = false →
        faqCond (normalizeQuery query) = true →
        classify_query query = QueryType.FAQ)
    ∧ (smallTalkCond (normalizeQuery query) = false →
        capabilityCond (normalizeQuery query) = false →
        graphCond (normalizeQuery query) = false →
        faqCond (normalizeQuery query) = false →
        classify_query query = QueryType.SEMANTIC)
    ∧ classify_query "Which investors funded fintech startups in India?"
        = QueryType.GRAPH
    ∧ classify_query "What is the maximum grant amount under SISFS?"
        = QueryType.FAQ := by
  refine ⟨?_, ?_, ?_, ?_, ?_, by decide, by decide⟩
  · intro h1; simp [classify_query, h1]
  · intro h1 h2; simp [classify_query, h1, h2]
  · intro h1 h2 h3; simp [classify_query, h1, h2, h3]
  · intro h1 h2 h3 h4; simp [classify_query, h1, h2, h3, h4]
  · intro h1 h2 h3 h4; simp [classify_query, h1, h2, h3, h4]

/-- Witness for C4: the rule chain applied at concrete queries. -/
theorem classify_query_order_witness :
    classify_query "hi" = QueryType.SMALL_TALK
    ∧ classify_query "Show relationships between startups and their investors"
        = QueryType.GRAPH := by
  constructor
  · exact (classify_query_order "hi").1 (by decide)
  · exact (classify_query_order
      "Show relationships between startups and their investors").2.2.1
      (by decide) (by decide) (by decide)

/-- Claim C9: a query shorter than 30 characters containing `hi`, `ok` or
`hey` anywhere — even inside an ordinary word — is classified SMALL_TALK, so
the chitchat substring rule preempts the GRAPH and FAQ rules; in particular
`which sectors` (13 characters, whose `which` contains `hi`) is SMALL_TALK
even though it contains the GRAPH trigger `which sectors`. -/
theorem substring_chitchat_preempts (query : String) :
    ((normalizeQuery query).length < 30 →
      (hasSubChars "hi".data (normalizeQuery query)
        || hasSubChars "ok".data (normalizeQuery query)
        || hasSubChars "hey".data (normalizeQuery query)) = true →
      classify_query query = QueryType.SMALL_TALK)
    ∧ classify_query "which sectors" = QueryType.SMALL_TALK
    ∧ graphCond (normalizeQuery "which sectors") = true := by
  refine ⟨?_, by decide, by decide⟩
  intro h1 h2
  have hst : smallTalkCond (normalizeQuery query) = true := by
    simp only [smallTalkCond, Bool.or_eq_true, Bool.and_eq_true]
    right
    refine ⟨by simpa using h1, ?_⟩
    simp only [Bool.or_eq_true] at h2
    simp only [chitchat_triggers, List.any_cons, List.any_nil, Bool.or_eq_true]
    rcases h2 with (h | h) | h <;> simp [h]
  simp [classify_query, hst]

/-- Witness for C9: a short query containing `hi` inside a word. -/
theorem substring_chitchat_preempts_witness :
    classify_query "hi there" = QueryType.SMALL_TALK :=
  (substring_chitchat_preempts "hi there").1 (by decide) (by decide)

/-- Claim C2 counterexample: on `storeTwo` with `k = 1` the Orchestrator's
`retrieve_documents` and the hybrid retrieval algorithm `hybrid_search`
produce different ranked chunk sequences for the same query and k: the dense
ranking alone puts chunk `A` first, while the BM25 fusion promotes chunk `B`. -/
theorem retrieve_hybrid_disagree :
    hybridChunkSeq storeTwo "q" 1 ≠ retrieveChunkSeq storeTwo "q" 1 := by
  decide

/-- Claim C2 amended: the evidence list the Orchestrator computes for the
SEMANTIC path is dense-only — `retrieve_documents` never consults the BM25
sparse scores, so its output is invariant under any change of the sparse
scoring oracle (unlike the §4.2 hybrid fusion, with which it disagrees on
`storeTwo`). -/
theorem retrieve_documents_dense_only (chunks : List Chunk) (ids : List String)
    (ds ss1 ss2 : String → Nat → ℚ) (query : String) (k : Nat) :
    retrieve_documents
        { chunks := chunks, chunk_ids := ids, denseScore := ds, bm25Score := ss1 }
        query k
      = retrieve_documents
        { chunks := chunks, chunk_ids := ids, denseScore := ds, bm25Score := ss2 }
        query k := rfl

/-- Helper for C8: the normalization loop produces at most one result per
index entry, whenever it does not raise. -/
theorem retrieveAux_length_le (chunks : List Chunk) (idxs : List Int) :
    (retrieveAux chunks idxs).elim True (fun r => r.length ≤ idxs.length) := by
  induction idxs with
  | nil => simp [retrieveAux]
  | cons idx rest ih =>
    simp only [retrieveAux]
    split
    · cases hpi : pyIndex chunks idx with
      | none => simp
      | some raw =>
        simp only
        cases hr : retrieveAux chunks rest with
        | none => simp
        | some r =>
          rw [hr] at ih
          simpa [Option.elim] using Nat.succ_le_succ ih
    · cases hr : retrieveAux chunks rest with
      | none => simp
      | some r =>
        rw [hr] at ih
        simp only [Option.elim] at ih ⊢
        exact Nat.le_succ_of_le ih

/-- Helper for C8: the padded dense search always returns exactly `m`
entries. -/
theorem denseSearchPadded_length (n : Nat) (score : Nat → ℚ) (m : Nat) :
    (denseSearchPadded n score m).length = m := by
  have hlen : (rankedPositions n score).length = n :=
    (rankedPositions_perm n score).length_eq.trans (List.length_range n)
  simp only [denseSearchPadded, List.length_append, List.length_map,
    List.length_replicate, List.length_take, hlen]
  omega

/-- Claim C8 counterexample: on the empty Evidence Store neither retrieval
function returns an empty result list — both raise, modelled as `none`:
`retrieve_documents` at `self.chunks[-1]` (the `-1` sentinel passes the
`idx < len(self.chunks)` guard and negative indexing into the empty list
fails), and `hybrid_search` in its dense loop or at `max()` of the empty
BM25 score array. -/
theorem retrieval_empty_store_raises :
    hybrid_search storeEmpty "What is SISFS?" 5 = none
    ∧ retrieve_documents storeEmpty "What is SISFS?" 5 = none
    ∧ hybrid_search storeEmpty "What is SISFS?" 5 ≠ some []
    ∧ retrieve_documents storeEmpty "What is SISFS?" 5 ≠ some [] := by
  refine ⟨rfl, by decide, by decide, by decide⟩

/-- Claim C8 amended: both retrieval functions return at most `k` results for
every store, query and `k` on which they return at all; on an empty Evidence
Store neither returns an empty sequence — `retrieve_documents` raises for
every `k ≥ 1` (for `k = 0` the search yields no sentinel entries and the loop
returns no results) and `hybrid_search` raises for every `k`. -/
theorem retrieval_count_invariant (store : Store) (query : String) (k : Nat)
    (ids : List String) (ds ss : String → Nat → ℚ) (q2 : String) (k2 : Nat) :
    (retrieve_documents store query k).elim True (fun res => res.length ≤ k)
    ∧ (hybrid_search store query k).elim True (fun res => res.length ≤ k)
    ∧ retrieve_documents
        { chunks := [], chunk_ids := ids, denseScore := ds, bm25Score := ss }
        q2 (k2 + 1) = none
    ∧ hybrid_search
        { chunks := [], chunk_ids := ids, denseScore := ds, bm25Score := ss }
        q2 k2 = none := by
  refine ⟨?_, ?_, ?_, ?_⟩
  case refine_3 =>
    show retrieveAux [] (denseSearchPadded 0 (ds q2) (k2 + 1)) = none
    have hpad : denseSearchPadded 0 (ds q2) (k2 + 1)
        = (-1) :: List.replicate k2 (-1) := by
      simp [denseSearchPadded, rankedPositions, sortByScoreDesc, List.range_zero,
        List.replicate_succ]
    rw [hpad]
    simp [retrieveAux, pyIndex]
  case refine_4 =>
    simp [hybrid_search, List.range_zero, listMax]
  · have h := retrieveAux_length_le store.chunks
      (denseSearchPadded store.chunks.length (store.denseScore query) k)
    rw [denseSearchPadded_length] at h
    exact h
  · cases hmx : listMax ((List.range store.chunks.length).map (store.bm25Score query)) with
    | none => simp [hybrid_search, hmx]
    | some mx =>
      simp only [hybrid_search, hmx, Option.elim]
      calc (((sortByScoreDesc Prod.snd
              (fusedResults store query k (maxBm25Norm mx))).take k).filterMap _).length
          ≤ ((sortByScoreDesc Prod.snd
              (fusedResults store query k (maxBm25Norm mx))).take k).length :=
            List.length_filterMap_le _ _
        _ ≤ k := by
            rw [List.length_take]
            exact Nat.min_le_left _ _

/-- Claim C3: in the fused score dictionary of `hybrid_search`, a chunk whose
position lies in both candidate sets scores `0.6*dense + 0.4*(sparse/max)`, a
chunk in only one set gets `0` for the missing term, a chunk in neither set is
absent, and the normalizer defaults to `1.0` whenever the maximum sparse score
is not positive (in particular when it is `0`). -/
theorem fused_score_formula (store : Store) (query : String) (top_k p : Nat)
    (mx : ℚ) (hnd : store.chunk_ids.Nodup)
    (hlen : store.chunk_ids.length = store.chunks.length)
    (hp : p < store.chunks.length) :
    getScore (fusedResults store query top_k mx) (store.chunk_ids.getD p "") =
      (if p ∈ denseCandidates store query top_k then
        if p ∈ sparseCandidates store query top_k then
          some (store.denseScore query p * (6/10)
            + store.bm25Score query p / mx * (4/10))
        else some (store.denseScore query p * (6/10))
      else if p ∈ sparseCandidates store query top_k then
        some (store.bm25Score query p / mx * (4/10))
      else none)
    ∧ (∀ m : ℚ, m ≤ 0 → maxBm25Norm m = 1) := by
  have hinj : ∀ a, a < store.chunks.length → ∀ b, b < store.chunks.length →
      store.chunk_ids.getD a "" = store.chunk_ids.getD b "" → a = b := by
    intro a ha b hb h
    exact getD_inj_of_nodup store.chunk_ids hnd a b
      (by rw [hlen]; exact ha) (by rw [hlen]; exact hb) h
  have hmapnd : ∀ l : List Nat, l.Nodup → (∀ x ∈ l, x < store.chunks.length) →
      (l.map (fun x => store.chunk_ids.getD x "")).Nodup := by
    intro l hl hb
    exact hl.map_on (fun x hx y hy hxy => hinj x (hb x hx) y (hb y hy) hxy)
  have hnddense := hmapnd _ (denseCandidates_nodup store query top_k)
    (fun x hx => mem_denseCandidates_lt store query top_k x hx)
  have hndsparse := hmapnd _ (sparseCandidates_nodup store query top_k)
    (fun x hx => mem_sparseCandidates_lt store query top_k x hx)
  refine ⟨?_, fun m hm => by simp [maxBm25Norm, not_lt.mpr hm]⟩
  by_cases hd : p ∈ denseCandidates store query top_k <;>
    by_cases hs : p ∈ sparseCandidates store query top_k
  · rw [if_pos hd, if_pos hs]
    simp only [fusedResults]
    rw [getScore_posfold_mem (fun x => store.chunk_ids.getD x "")
      (fun x => store.bm25Score query x / mx * (4/10)) _ p hndsparse hs]
    rw [getScore_posfold_mem (fun x => store.chunk_ids.getD x "")
      (fun x => store.denseScore query x * (6/10)) _ p hnddense hd]
    simp [getScore]
  · rw [if_pos hd, if_neg hs]
    have hnot : ∀ a ∈ sparseCandidates store query top_k,
        store.chunk_ids.getD a "" ≠ store.chunk_ids.getD p "" := by
      intro a ha he
      exact hs ((hinj a (mem_sparseCandidates_lt store query top_k a ha) p hp he) ▸ ha)
    simp only [fusedResults]
    rw [getScore_posfold_not_mem (fun x => store.chunk_ids.getD x "")
      (fun x => store.bm25Score query x / mx * (4/10)) _ _ hnot]
    rw [getScore_posfold_mem (fun x => store.chunk_ids.getD x "")
      (fun x => store.denseScore query x * (6/10)) _ p hnddense hd]
    simp [getScore]
  · rw [if_neg hd, if_pos hs]
    have hnot : ∀ a ∈ denseCandidates store query top_k,
        store.chunk_ids.getD a "" ≠ store.chunk_ids.getD p "" := by
      intro a ha he
      exact hd ((hinj a (mem_denseCandidates_lt store query top_k a ha) p hp he) ▸ ha)
    simp only [fusedResults]
    rw [getScore_posfold_mem (fun x => store.chunk_ids.getD x "")
      (fun x => store.bm25Score query x / mx * (4/10)) _ p hndsparse hs]
    rw [getScore_posfold_not_mem (fun x => store.chunk_ids.getD x "")
      (fun x => store.denseScore query x * (6/10)) _ _ hnot]
    simp [getScore]
  · rw [if_neg hd, if_neg hs]
    have hnots : ∀ a ∈ sparseCandidates store query top_k,
        store.chunk_ids.getD a "" ≠ store.chunk_ids.getD p "" := by
      intro a ha he
      exact hs ((hinj a (mem_sparseCandidates_lt store query top_k a ha) p hp he) ▸ ha)
    have hnotd : ∀ a ∈ denseCandidates store query top_k,
        store.chunk_ids.getD a "" ≠ store.chunk_ids.getD p "" := by
      intro a ha he
      exact hd ((hinj a (mem_denseCandidates_lt store query top_k a ha) p hp he) ▸ ha)
    simp only [fusedResults]
    rw [getScore_posfold_not_mem (fun x => store.chunk_ids.getD x "")
      (fun x => store.bm25Score query x / mx * (4/10)) _ _ hnots]
    rw [getScore_posfold_not_mem (fun x => store.chunk_ids.getD x "")
      (fun x => store.denseScore query x * (6/10)) _ _ hnotd]
    rfl

/-- Witness for C3: the formula evaluated on `storeTwo` at position 0 with
normalizer 10, and the zero-maximum default. -/
theorem fused_score_formula_witness :
    getScore (fusedResults storeTwo "q" 1 10) (storeTwo.chunk_ids.getD 0 "")
      = some ((1 : ℚ) * (6/10) + 0 / 10 * (4/10))
    ∧ maxBm25Norm 0 = 1 := by
  constructor
  · have h := (fused_score_formula storeTwo "q" 1 0 10
      (by decide) (by decide) (by decide)).1
    rw [h]
    decide
  · exact (fused_score_formula storeTwo "q" 1 0 10
      (by decide) (by decide) (by decide)).2 0 le_rfl
